import Mathlib

/-!
Shallow embedding of the pokervitoria membership core.

Source of truth:
* `src/unnamed/part_002` — the in-memory rooms store (`createRoom`, `getRoom`,
  `addPlayer`, `listPlayers`, `removePlayer`).  The store keeps a `Map` from
  room ids to room objects; mutation happens in place on the room object the
  map already holds, which we model by replacing the first entry of an
  association list whose id matches.
* `src/apps/server/src/realtime/socket.js` — the realtime gateway: the
  `room:join`, `room:leave` and `disconnect` handlers for one connection.
* `src/apps/server/src/routes/rooms.js` — the HTTP layer; we embed the
  `POST /rooms` handler (validation + delegation to `createRoom`).

Modelling conventions:
* `crypto.randomUUID()` is nondeterministic, so freshly generated ids are
  taken as explicit arguments of the operations (an id oracle).
* timestamps (`createdAt`, `joinedAt`) play no role in any claim and are
  elided from the records.
* JavaScript string truthiness (`!s`) on a string is the test `s == ""`.
* `String.prototype.toLowerCase` is modelled by `Char.toLower` on each
  character, `String.prototype.trim` by dropping whitespace from both ends,
  and `String.prototype.length` by the length of the character list — all
  defined structurally over `String.data` so that every definition reduces
  on concrete inputs.
-/

namespace PokerVitoria

/-- JS `s.trim()`: the string with leading and trailing whitespace removed. -/
def jsTrim (s : String) : String :=
  ⟨((s.data.dropWhile Char.isWhitespace).reverse.dropWhile Char.isWhitespace).reverse⟩

/-- JS `s.length` (character count). -/
def jsLength (s : String) : Nat := s.data.length

/-- A player record as built in `addPlayer` (`src/unnamed/part_002`, lines 67-71):
`{ id: crypto.randomUUID(), name: cleanName }` (the `joinedAt` timestamp is elided). -/
structure Player where
  id : String
  name : String
  deriving Repr, DecidableEq

/-- A room record as built in `createRoom` (`src/unnamed/part_002`, lines 22-27):
`{ id, name: name.trim(), players: [] }` (the `createdAt` timestamp is elided). -/
structure Room where
  id : String
  name : String
  players : List Player
  deriving Repr, DecidableEq

/-- The server-wide `rooms` Map, modelled as an association list keyed by
`Room.id`.  `Map` keys are unique; lookups read the first matching entry and
in-place mutation of a looked-up room object is modelled by replacing that
first matching entry. -/
abbrev Registry := List Room

/-- JS `s.toLowerCase()` (per-character lowering). -/
def jsToLower (s : String) : String := ⟨s.data.map Char.toLower⟩

/-- `getRoom` (`src/unnamed/part_002`): `rooms.get(id) || null`, i.e. the entry
stored under the id, `none` when absent. -/
def getRoom (reg : Registry) (id : String) : Option Room :=
  reg.find? (fun r => r.id == id)

/-- Replace the first room whose id is `rid` by `room`.  This models the JS
in-place mutation of the object `rooms.get(rid)` returned by the Map. -/
def updateRoom : Registry → String → Room → Registry
  | [], _, _ => []
  | r :: rs, rid, room => if r.id == rid then room :: rs else r :: updateRoom rs rid room

/-- JS `Map.set(room.id, room)`: overwrite the entry when the key is present,
append otherwise. -/
def mapSet (reg : Registry) (room : Room) : Registry :=
  if (getRoom reg room.id).isSome then updateRoom reg room.id room else reg ++ [room]

/-- `createRoom(name)` (`src/unnamed/part_002`, lines 16-34): build a room with
a fresh id, a trimmed name and no players, and store it in the Map.  The fresh
`crypto.randomUUID()` is the explicit argument `freshId`. -/
def createRoom (reg : Registry) (freshId name : String) : Registry × Room :=
  let room : Room := { id := freshId, name := jsTrim name, players := [] }
  (mapSet reg room, room)

/-- The duplicate-name scan of `addPlayer` (`src/unnamed/part_002`, lines 60-62):
`room.players.some((p) => p.name.toLowerCase() === cleanName.toLowerCase())`. -/
def nameTakenIn (players : List Player) (cleanName : String) : Bool :=
  players.any (fun p => jsToLower p.name == jsToLower cleanName)

/-- Outcome of `addPlayer`: `{error:"ROOM_NOT_FOUND"}`, `{error:"NAME_TAKEN"}`,
or `{room, player}` (the room is recoverable from the returned registry). -/
inductive AddResult where
  | roomNotFound
  | nameTaken
  | ok (player : Player)
  deriving Repr, DecidableEq

/-- `addPlayer(roomId, playerName)` (`src/unnamed/part_002`, lines 52-80).
`pid` is the fresh `crypto.randomUUID()` for the new player.  Returns the
registry after the call together with the outcome. -/
def addPlayer (reg : Registry) (roomId playerName pid : String) : Registry × AddResult :=
  match getRoom reg roomId with
  | none => (reg, .roomNotFound)
  | some room =>
    let cleanName := jsTrim playerName
    if nameTakenIn room.players cleanName then (reg, .nameTaken)
    else
      let player : Player := { id := pid, name := cleanName }
      (updateRoom reg roomId { room with players := room.players ++ [player] }, .ok player)

/-- `listPlayers(roomId)` (`src/unnamed/part_002`, lines 85-91): the room's
current player array, or an error (`none`) when the room is missing. -/
def listPlayers (reg : Registry) (roomId : String) : Option (List Player) :=
  (getRoom reg roomId).map (fun r => r.players)

/-- `removePlayer(roomId, playerId)` (`src/unnamed/part_002`, lines 127-139):
filter the player out of the room's array and report whether the length
changed.  Unknown room: `(reg, false)`. -/
def removePlayer (reg : Registry) (roomId playerId : String) : Registry × Bool :=
  match getRoom reg roomId with
  | none => (reg, false)
  | some room =>
    let before := room.players.length
    let newPlayers := room.players.filter (fun p => p.id != playerId)
    (updateRoom reg roomId { room with players := newPlayers },
     newPlayers.length != before)

/-- Outcome of the `POST /rooms` route: `400 Bad Request` (validation) or
`201 Created` with the room. -/
inductive CreateResult where
  | badRequest
  | created (room : Room)
  deriving Repr, DecidableEq

/-- The `POST /rooms` handler (`src/apps/server/src/routes/rooms.js`,
lines 35-57): reject unless the name is a string of trimmed length ≥ 2
(for a string input `!name` is subsumed: the empty string trims to length 0),
otherwise delegate to `createRoom`. -/
def postRooms (reg : Registry) (name freshId : String) : Registry × CreateResult :=
  if name == "" || jsLength (jsTrim name) < 2 then (reg, .badRequest)
  else
    let res := createRoom reg freshId name
    (res.1, .created res.2)

/-! ## The realtime gateway (`src/apps/server/src/realtime/socket.js`)

We model one connection.  `socket.data.roomId` / `socket.data.playerId` are
either both set (after a successful join) or both absent (`delete` on leave),
so they are modelled as one optional `Binding`.  Events emitted by a handler
are collected in order; `playersEvt` is the `io.to(roomId)` room-wide
broadcast, the others are private `socket.emit`s. -/

/-- The `socket.data` fields `{roomId, playerId}` set on a successful join. -/
structure Binding where
  roomId : String
  playerId : String
  deriving Repr, DecidableEq

/-- The state a handler can touch: the shared rooms store plus this
connection's `socket.data`. -/
structure GwState where
  registry : Registry
  binding : Option Binding
  deriving Repr, DecidableEq

/-- Events emitted by the handlers: private `error`, private `room:joined`,
room-wide broadcast `room:players` (full snapshot), private `room:left`. -/
inductive Event where
  | errEvt (msg : String)
  | joinedEvt (roomId : String) (player : Player)
  | playersEvt (roomId : String) (players : List Player)
  | leftEvt (roomId : String)
  deriving Repr, DecidableEq

/-- The `room:join` handler (`socket.js`, lines 37-94).  For string payload
fields the JS guards reduce to: `roomId` must be nonempty, `playerName` must
be nonempty with trimmed length ≥ 2.  On store success the handler binds
`socket.data`, emits the private `room:joined`, then broadcasts the full
current list `listPlayers(roomId).players` to the room.  (On the success path
the room provably exists, so the `getD []` default of the snapshot payload is
never used.)  `pid` is the fresh player UUID. -/
def handleJoin (st : GwState) (roomId playerName pid : String) : GwState × List Event :=
  if roomId == "" then (st, [.errEvt "roomId required"])
  else if playerName == "" || jsLength (jsTrim playerName) < 2 then
    (st, [.errEvt "playerName required (min 2 chars)"])
  else
    match addPlayer st.registry roomId playerName pid with
    | (_, .roomNotFound) => (st, [.errEvt "Room not found"])
    | (_, .nameTaken) => (st, [.errEvt "Name taken"])
    | (reg, .ok player) =>
      ({ registry := reg, binding := some ⟨roomId, player.id⟩ },
       [.joinedEvt roomId player,
        .playersEvt roomId ((listPlayers reg roomId).getD [])])

/-- The `room:leave` handler (`socket.js`, lines 101-126).  Destructure
`socket.data`; bail out when either field is falsy.  Otherwise remove the
player from the store (result ignored), clear `socket.data`, broadcast the
snapshot when `listPlayers` reports no error, and finally emit the private
`room:left` unconditionally. -/
def handleLeave (st : GwState) : GwState × List Event :=
  match st.binding with
  | none => (st, [])
  | some b =>
    if b.roomId == "" || b.playerId == "" then (st, [])
    else
      let reg := (removePlayer st.registry b.roomId b.playerId).1
      let snapshot : List Event :=
        match listPlayers reg b.roomId with
        | some ps => [.playersEvt b.roomId ps]
        | none => []
      ({ registry := reg, binding := none }, snapshot ++ [.leftEvt b.roomId])

/-- The `disconnect` handler (`socket.js`, lines 133-150).  Same cleanup as
`room:leave` but with no private confirmation; the connection is destroyed,
so only the resulting registry and the emitted events are observable. -/
def handleDisconnect (st : GwState) : Registry × List Event :=
  match st.binding with
  | none => (st.registry, [])
  | some b =>
    if b.roomId == "" || b.playerId == "" then (st.registry, [])
    else
      let reg := (removePlayer st.registry b.roomId b.playerId).1
      let snapshot : List Event :=
        match listPlayers reg b.roomId with
        | some ps => [.playersEvt b.roomId ps]
        | none => []
      (reg, snapshot)

/-! ## Operation sequences over the store (for the registry invariant) -/

/-- One store mutation: a call to `addPlayer` or to `removePlayer`. -/
inductive Op where
  | add (roomId playerName pid : String)
  | remove (roomId playerId : String)
  deriving Repr, DecidableEq

/-- Apply one operation to the registry (keeping only the state). -/
def applyOp (reg : Registry) : Op → Registry
  | .add rid pn pid => (addPlayer reg rid pn pid).1
  | .remove rid pid => (removePlayer reg rid pid).1

/-- Apply a sequence of operations left to right. -/
def applyOps (reg : Registry) (ops : List Op) : Registry :=
  ops.foldl applyOp reg

/-- The per-room uniqueness invariant: no two players of the room have names
that are equal under case-insensitive comparison. -/
def roomNamesOk (room : Room) : Prop :=
  (room.players.map (fun p => jsToLower p.name)).Nodup

/-- The registry-wide invariant: every room satisfies `roomNamesOk`. -/
def RegInv (reg : Registry) : Prop :=
  ∀ room ∈ reg, roomNamesOk room

instance : DecidablePred roomNamesOk := fun _ =>
  inferInstanceAs (Decidable (List.Nodup _))

instance (reg : Registry) : Decidable (RegInv reg) :=
  inferInstanceAs (Decidable (∀ room ∈ reg, roomNamesOk room))

/-! ## Basic lemmas about the registry operations -/

/-- A room found under a key carries that key as its id. -/
theorem getRoom_id {reg : Registry} {rid : String} {room : Room}
    (h : getRoom reg rid = some room) : room.id = rid := by
  rw [getRoom] at h
  have hp := List.find?_some (p := fun r : Room => r.id == rid) h
  exact beq_iff_eq.mp hp

/-- A room found in the registry is an entry of the registry. -/
theorem getRoom_mem {reg : Registry} {rid : String} {room : Room}
    (h : getRoom reg rid = some room) : room ∈ reg := by
  rw [getRoom] at h
  exact List.mem_of_find?_eq_some h

/-- Every entry of the updated registry is an old entry or the new room. -/
theorem mem_updateRoom {reg : Registry} {rid : String} {room r : Room}
    (h : r ∈ updateRoom reg rid room) : r ∈ reg ∨ r = room := by
  induction reg with
  | nil => simp [updateRoom] at h
  | cons a as ih =>
    simp only [updateRoom] at h
    split at h
    · rcases List.mem_cons.mp h with h | h
      · exact Or.inr h
      · exact Or.inl (List.mem_cons_of_mem a h)
    · rcases List.mem_cons.mp h with h | h
      · exact Or.inl (h ▸ List.mem_cons_self a as)
      · rcases ih h with h | h
        · exact Or.inl (List.mem_cons_of_mem a h)
        · exact Or.inr h

/-- After replacing the entry under `rid` with a room whose id is `rid`,
looking up `rid` yields the new room (provided the key was present). -/
theorem getRoom_updateRoom_self {reg : Registry} {rid : String} {room r0 : Room}
    (h : getRoom reg rid = some r0) (hid : room.id = rid) :
    getRoom (updateRoom reg rid room) rid = some room := by
  induction reg with
  | nil => simp [getRoom] at h
  | cons a as ih =>
    simp only [updateRoom]
    by_cases ha : a.id == rid
    · simp only [ha, if_true]
      simp [getRoom, List.find?_cons_of_pos, hid]
    · simp only [ha, Bool.false_eq_true, if_false]
      have h' : getRoom as rid = some r0 := by
        simpa [getRoom, List.find?_cons_of_neg, ha] using h
      simpa [getRoom, List.find?_cons_of_neg, ha] using ih h'

/-- Replacing the entry under `rid` does not change lookups at other keys. -/
theorem getRoom_updateRoom_ne {reg : Registry} {rid other : String} {room : Room}
    (hne : other ≠ rid) (hid : room.id = rid) :
    getRoom (updateRoom reg rid room) other = getRoom reg other := by
  induction reg with
  | nil => simp [updateRoom]
  | cons a as ih =>
    simp only [updateRoom]
    by_cases ha : a.id == rid
    · have haid : a.id = rid := beq_iff_eq.mp ha
      simp only [ha, if_true]
      have h1 : (room.id == other) = false := by
        simp [hid, (Ne.symm hne)]
      have h2 : (a.id == other) = false := by
        simp [haid, (Ne.symm hne)]
      simp [getRoom, List.find?_cons_of_neg, h1, h2]
    · simp only [ha, Bool.false_eq_true, if_false]
      by_cases hao : a.id == other
      · simp [getRoom, List.find?_cons_of_pos, hao]
      · simpa [getRoom, List.find?_cons_of_neg, hao] using ih

/-- Replacing the found entry by itself is a no-op. -/
theorem updateRoom_self {reg : Registry} {rid : String} {room : Room}
    (h : getRoom reg rid = some room) : updateRoom reg rid room = reg := by
  induction reg with
  | nil => simp [getRoom] at h
  | cons a as ih =>
    simp only [updateRoom]
    by_cases ha : a.id == rid
    · have hr : a = room := by
        have heq := List.find?_cons_of_pos (p := fun r : Room => r.id == rid) as ha
        rw [getRoom, heq] at h
        exact Option.some.inj h
      subst hr
      simp [ha]
    · have h' : getRoom as rid = some room := by
        simpa [getRoom, List.find?_cons_of_neg, ha] using h
      simp [ha, ih h']

/-- The duplicate-name scan succeeds exactly when some member's name matches
case-insensitively. -/
theorem nameTakenIn_eq_true_iff {ps : List Player} {s : String} :
    nameTakenIn ps s = true ↔ ∃ p ∈ ps, jsToLower p.name = jsToLower s := by
  simp [nameTakenIn]

/-- The duplicate-name scan fails exactly when no member's name matches
case-insensitively. -/
theorem nameTakenIn_eq_false_iff {ps : List Player} {s : String} :
    nameTakenIn ps s = false ↔ ∀ p ∈ ps, jsToLower p.name ≠ jsToLower s := by
  simp [nameTakenIn]

/-- Inversion of a successful `addPlayer` call: the room existed, the trimmed
name was free, the returned player is `{id := pid, name := cleanName}` and the
new registry holds the room with the player appended. -/
theorem addPlayer_ok_eq {reg reg' : Registry} {roomId pn pid : String} {player : Player}
    (h : addPlayer reg roomId pn pid = (reg', AddResult.ok player)) :
    ∃ room, getRoom reg roomId = some room ∧
      nameTakenIn room.players (jsTrim pn) = false ∧
      player = ⟨pid, jsTrim pn⟩ ∧
      reg' = updateRoom reg roomId { room with players := room.players ++ [player] } := by
  unfold addPlayer at h
  cases hg : getRoom reg roomId with
  | none => rw [hg] at h; exact absurd (congrArg Prod.snd h) (by simp)
  | some room =>
    rw [hg] at h
    by_cases ht : nameTakenIn room.players (jsTrim pn) = true
    · simp only [ht, if_true] at h
      exact absurd (congrArg Prod.snd h) (by simp)
    · have ht' : nameTakenIn room.players (jsTrim pn) = false := by
        simpa using ht
      simp only [ht', Bool.false_eq_true, if_false] at h
      have hp : player = ⟨pid, jsTrim pn⟩ := by
        have := congrArg Prod.snd h
        simp at this
        exact this.symm
      refine ⟨room, rfl, ht', hp, ?_⟩
      have := congrArg Prod.fst h
      simp at this
      rw [← this, hp]

/-- The registry returned by a successful `addPlayer` call still finds every
other room unchanged, and finds the target room with the player appended. -/
theorem addPlayer_ok_getRoom {reg reg' : Registry} {roomId pn pid : String} {player : Player}
    (h : addPlayer reg roomId pn pid = (reg', AddResult.ok player)) :
    (∃ room, getRoom reg roomId = some room ∧
        getRoom reg' roomId = some { room with players := room.players ++ [player] }) ∧
    ∀ other, other ≠ roomId → getRoom reg' other = getRoom reg other := by
  obtain ⟨room, hg, -, -, hreg⟩ := addPlayer_ok_eq h
  have hid0 : room.id = roomId := getRoom_id hg
  have hid : ({ room with players := room.players ++ [player] } : Room).id = roomId := hid0
  constructor
  · exact ⟨room, hg, by rw [hreg]; exact getRoom_updateRoom_self hg hid⟩
  · intro other hother
    rw [hreg]
    exact getRoom_updateRoom_ne hother hid

/-- `removePlayer` never changes any room other than the one it targets. -/
theorem getRoom_removePlayer_ne {reg : Registry} {rid pid other : String}
    (hne : other ≠ rid) :
    getRoom (removePlayer reg rid pid).1 other = getRoom reg other := by
  unfold removePlayer
  cases hg : getRoom reg rid with
  | none => rfl
  | some room =>
    have hid0 : room.id = rid := getRoom_id hg
    have hid : ({ room with players := room.players.filter (fun p => p.id != pid) } : Room).id
        = rid := hid0
    exact getRoom_updateRoom_ne hne hid

/-! ## Preservation of the case-insensitive name-uniqueness invariant -/

/-- `addPlayer` preserves the registry invariant: on success the appended
player's lowered name was (by the `nameTaken` scan) absent from the room. -/
theorem RegInv_addPlayer {reg : Registry} (h : RegInv reg) (rid pn pid : String) :
    RegInv (addPlayer reg rid pn pid).1 := by
  unfold addPlayer
  cases hg : getRoom reg rid with
  | none => exact h
  | some room =>
    by_cases ht : nameTakenIn room.players (jsTrim pn) = true
    · simp only [ht, if_true]
      exact h
    · have ht' : nameTakenIn room.players (jsTrim pn) = false := by simpa using ht
      simp only [ht', Bool.false_eq_true, if_false]
      intro r hr
      rcases mem_updateRoom hr with hmem | rfl
      · exact h r hmem
      · have hnod : roomNamesOk room := h room (getRoom_mem hg)
        unfold roomNamesOk at hnod ⊢
        simp only [List.map_append, List.map_cons, List.map_nil]
        rw [List.nodup_append]
        refine ⟨hnod, List.nodup_singleton _, ?_⟩
        intro a ha hax
        rcases List.mem_map.mp ha with ⟨p, hp, rfl⟩
        have hne := nameTakenIn_eq_false_iff.mp ht' p hp
        have : jsToLower p.name = jsToLower (jsTrim pn) := by
          simpa using hax
        exact hne this

/-- `removePlayer` preserves the registry invariant: a filtered member list is
a sublist, and `Nodup` descends to sublists. -/
theorem RegInv_removePlayer {reg : Registry} (h : RegInv reg) (rid pid : String) :
    RegInv (removePlayer reg rid pid).1 := by
  unfold removePlayer
  cases hg : getRoom reg rid with
  | none => exact h
  | some room =>
    intro r hr
    rcases mem_updateRoom hr with hmem | rfl
    · exact h r hmem
    · have hnod : roomNamesOk room := h room (getRoom_mem hg)
      unfold roomNamesOk at hnod ⊢
      exact List.Nodup.sublist ((List.filter_sublist _).map _) hnod

/-! ## The claims -/

/-- C1: For every room in the registry, after any sequence of `addPlayer` and
`removePlayer` operations, no two players in that room's member sequence have
names that are equal under case-insensitive comparison (provided the invariant
held before the sequence; rooms are created with no players, so it holds for
every registry the store can build). -/
theorem claim_c1_name_uniqueness_invariant (reg : Registry) (ops : List Op)
    (h : RegInv reg) : RegInv (applyOps reg ops) := by
  induction ops generalizing reg with
  | nil => exact h
  | cons op rest ih =>
    have hstep : RegInv (applyOp reg op) := by
      cases op with
      | add rid pn pid => exact RegInv_addPlayer h rid pn pid
      | remove rid pid => exact RegInv_removePlayer h rid pid
    exact ih _ hstep

/-- Witness for C1 at a concrete registry and operation sequence. -/
theorem claim_c1_name_uniqueness_invariant_witness :
    RegInv (applyOps [⟨"r1", "Lobby", [⟨"p1", "Alice"⟩]⟩]
      [Op.add "r1" " Bob " "p2", Op.remove "r1" "p1", Op.add "r1" "ALICE" "p3"]) :=
  claim_c1_name_uniqueness_invariant _ _ (by decide)

/-- C2: If the room exists and the trimmed name is not already present
case-insensitively among its members, `addPlayer` succeeds, the created
player's name is the trimmed input, and the player is appended at the end of
the room's member sequence. -/
theorem claim_c2_addPlayer_appends_trimmed (reg : Registry) (roomId name pid : String)
    (room : Room) (hroom : getRoom reg roomId = some room)
    (hfree : ∀ p ∈ room.players, jsToLower p.name ≠ jsToLower (jsTrim name)) :
    ∃ player : Player,
      (addPlayer reg roomId name pid).2 = AddResult.ok player ∧
      player.name = jsTrim name ∧
      listPlayers (addPlayer reg roomId name pid).1 roomId
        = some (room.players ++ [player]) := by
  have htaken : nameTakenIn room.players (jsTrim name) = false :=
    nameTakenIn_eq_false_iff.mpr hfree
  refine ⟨⟨pid, jsTrim name⟩, ?_, rfl, ?_⟩
  · simp [addPlayer, hroom, htaken]
  · have hid0 : room.id = roomId := getRoom_id hroom
    have hid : ({ room with players := room.players ++ [⟨pid, jsTrim name⟩] } : Room).id
        = roomId := hid0
    simp only [addPlayer, hroom, htaken, Bool.false_eq_true, if_false, listPlayers]
    rw [getRoom_updateRoom_self hroom hid]
    rfl

/-- Witness for C2: joining a fresh name (trimmed) appends it. -/
theorem claim_c2_addPlayer_appends_trimmed_witness :
    ∃ player : Player,
      (addPlayer [⟨"r1", "Lobby", [⟨"p1", "Alice"⟩]⟩] "r1" " Bob " "p2").2
        = AddResult.ok player ∧
      player.name = jsTrim " Bob " ∧
      listPlayers (addPlayer [⟨"r1", "Lobby", [⟨"p1", "Alice"⟩]⟩] "r1" " Bob " "p2").1 "r1"
        = some ([⟨"p1", "Alice"⟩] ++ [player]) :=
  claim_c2_addPlayer_appends_trimmed _ "r1" " Bob " "p2" ⟨"r1", "Lobby", [⟨"p1", "Alice"⟩]⟩
    (by decide) (by decide)

/-- C3: Joining with a name that matches an existing member's name up to
letter case yields the `NAME_TAKEN` error, and the registry — in particular
the room's member sequence — is unchanged by the failed call. -/
theorem claim_c3_case_clash_rejected (reg : Registry) (roomId name pid : String)
    (room : Room) (p : Player) (hroom : getRoom reg roomId = some room)
    (hp : p ∈ room.players)
    (hcase : jsToLower p.name = jsToLower (jsTrim name)) :
    addPlayer reg roomId name pid = (reg, AddResult.nameTaken) := by
  have htaken : nameTakenIn room.players (jsTrim name) = true :=
    nameTakenIn_eq_true_iff.mpr ⟨p, hp, hcase⟩
  simp [addPlayer, hroom, htaken]

/-- Witness for C3: the spec's scenario — "alice" after "Alice". -/
theorem claim_c3_case_clash_rejected_witness :
    addPlayer [⟨"r1", "Table A", [⟨"p1", "Alice"⟩]⟩] "r1" "alice" "p2"
      = ([⟨"r1", "Table A", [⟨"p1", "Alice"⟩]⟩], AddResult.nameTaken) :=
  claim_c3_case_clash_rejected _ "r1" "alice" "p2" ⟨"r1", "Table A", [⟨"p1", "Alice"⟩]⟩
    ⟨"p1", "Alice"⟩ (by decide) (by decide) (by decide)

/-- C4: `removePlayer` returns `true` iff a member was actually removed; when
it returns `false` the registry is unchanged; and a second call with the same
arguments returns `false` and leaves the registry where the first call left
it. -/
theorem claim_c4_removePlayer_iff_noop_idempotent (reg : Registry) (roomId pid : String) :
    ((removePlayer reg roomId pid).2 = true ↔
        ∃ room, getRoom reg roomId = some room ∧ ∃ p ∈ room.players, p.id = pid)
    ∧ ((removePlayer reg roomId pid).2 = false → (removePlayer reg roomId pid).1 = reg)
    ∧ removePlayer (removePlayer reg roomId pid).1 roomId pid
        = ((removePlayer reg roomId pid).1, false) := by
  cases hg : getRoom reg roomId with
  | none =>
    refine ⟨?_, ?_, ?_⟩
    · simp only [removePlayer, hg]
      simp [hg]
    · intro _
      simp [removePlayer, hg]
    · simp [removePlayer, hg]
  | some room =>
    have hid0 : room.id = roomId := getRoom_id hg
    set ps := room.players with hps
    set newPs := ps.filter (fun p => p.id != pid) with hnew
    have hlen_iff : newPs.length ≠ ps.length ↔ ∃ p ∈ ps, p.id = pid := by
      constructor
      · intro hne
        have hlt : newPs.length < ps.length :=
          lt_of_le_of_ne (List.length_filter_le _ _) hne
        rcases List.length_filter_lt_length_iff_exists.mp hlt with ⟨p, hp, hfail⟩
        exact ⟨p, hp, by simpa using hfail⟩
      · intro ⟨p, hp, hpid⟩
        have hlt : newPs.length < ps.length :=
          List.length_filter_lt_length_iff_exists.mpr ⟨p, hp, by simp [hpid]⟩
        exact Nat.ne_of_lt hlt
    have hrw : removePlayer reg roomId pid
        = (updateRoom reg roomId { room with players := newPs },
           (newPs.length != ps.length)) := by
      simp [removePlayer, hg]
    refine ⟨?_, ?_, ?_⟩
    · rw [hrw]
      simp only [hg]
      constructor
      · intro htrue
        exact ⟨room, rfl, hlen_iff.mp (bne_iff_ne.mp htrue)⟩
      · intro ⟨room', hroom', hex⟩
        have : room' = room := (Option.some.inj hroom').symm
        subst this
        exact bne_iff_ne.mpr (hlen_iff.mpr hex)
    · rw [hrw]
      intro hfalse
      have heq : newPs.length = ps.length := by
        by_contra hne
        rw [bne_iff_ne.mpr hne] at hfalse
        exact Bool.true_eq_false.mp hfalse
      have hsame : newPs = ps := (List.filter_sublist ps).eq_of_length heq
      have : ({ room with players := newPs } : Room) = room := by
        rw [hsame]
      rw [this]
      exact updateRoom_self hg
    · rw [hrw]
      have hid : ({ room with players := newPs } : Room).id = roomId := hid0
      have hg2 : getRoom (updateRoom reg roomId { room with players := newPs }) roomId
          = some { room with players := newPs } := getRoom_updateRoom_self hg hid
      have hall : ∀ p ∈ newPs, (p.id != pid) = true := by
        intro p hp
        rw [hnew] at hp
        exact List.of_mem_filter (p := fun q : Player => q.id != pid) hp
      have hfix : newPs.filter (fun p => p.id != pid) = newPs :=
        List.filter_eq_self.mpr hall
      simp only [removePlayer, hg2]
      rw [hfix]
      simp [updateRoom_self hg2]

/-- Witness for C4 (hypothesis-free; it instantiates the theorem at a
concrete registry and checks the double-removal clause). -/
theorem claim_c4_removePlayer_iff_noop_idempotent_witness :
    removePlayer (removePlayer [⟨"r1", "Lobby", [⟨"p1", "Alice"⟩]⟩] "r1" "p1").1 "r1" "p1"
      = ((removePlayer [⟨"r1", "Lobby", [⟨"p1", "Alice"⟩]⟩] "r1" "p1").1, false) :=
  (claim_c4_removePlayer_iff_noop_idempotent [⟨"r1", "Lobby", [⟨"p1", "Alice"⟩]⟩]
    "r1" "p1").2.2

/-- C8: The room-creation entry point rejects every name that is empty after
trimming with a `400 Bad Request` (the route's `ValidationError`), and no
room is added to the registry.  In the source the validation lives in the
`POST /rooms` handler, which is the only caller of the store's `createRoom`. -/
theorem claim_c8_create_rejects_blank (reg : Registry) (name freshId : String)
    (h : jsTrim name = "") :
    postRooms reg name freshId = (reg, CreateResult.badRequest) := by
  have hlen : jsLength (jsTrim name) = 0 := by rw [h]; rfl
  simp [postRooms, hlen]

/-- Witness for C8: a whitespace-only name is rejected and the registry kept. -/
theorem claim_c8_create_rejects_blank_witness :
    postRooms [⟨"r1", "Lobby", []⟩] "   " "r2"
      = ([⟨"r1", "Lobby", []⟩], CreateResult.badRequest) :=
  claim_c8_create_rejects_blank _ "   " "r2" (by decide)

/-- Unfolding of `handleJoin` on the success path: when the payload passes
validation and the store admit succeeds, the handler binds the connection,
emits the private `room:joined` and broadcasts the `listPlayers` snapshot. -/
theorem handleJoin_ok_eq {st : GwState} {roomId name pid : String} {reg' : Registry}
    {player : Player} (hrid : roomId ≠ "") (hlen : 2 ≤ jsLength (jsTrim name))
    (haa : addPlayer st.registry roomId name pid = (reg', AddResult.ok player)) :
    handleJoin st roomId name pid
      = ({ registry := reg', binding := some ⟨roomId, player.id⟩ },
         [Event.joinedEvt roomId player,
          Event.playersEvt roomId ((listPlayers reg' roomId).getD [])]) := by
  have hr' : (roomId == "") = false := by simp [hrid]
  have hname : name ≠ "" := by
    intro he
    rw [he] at hlen
    exact absurd hlen (by decide)
  have hn' : (name == "") = false := by simp [hname]
  have hcond : (name == "" || decide (jsLength (jsTrim name) < 2)) = false := by
    simp [hn', Nat.not_lt.mpr hlen]
  simp only [handleJoin, hr', Bool.false_eq_true, if_false, hcond, haa]

/-- C5: Whenever the gateway's join handler succeeds or its leave handler
emits a room-wide `room:players` broadcast, the broadcast payload is exactly
the room's current member sequence in the registry the handler leaves behind
(the full list, in join order). -/
theorem claim_c5_broadcast_is_current_list (st : GwState) (roomId name pid : String) :
    (∀ player : Player, roomId ≠ "" → 2 ≤ jsLength (jsTrim name) →
        (addPlayer st.registry roomId name pid).2 = AddResult.ok player →
        ∃ ps, (handleJoin st roomId name pid).2
              = [Event.joinedEvt roomId player, Event.playersEvt roomId ps]
          ∧ listPlayers (handleJoin st roomId name pid).1.registry roomId = some ps)
    ∧ (∀ rid ps, Event.playersEvt rid ps ∈ (handleLeave st).2 →
        listPlayers (handleLeave st).1.registry rid = some ps) := by
  constructor
  · intro player hrid hlen hok
    rcases haa : addPlayer st.registry roomId name pid with ⟨reg', res⟩
    rw [haa] at hok
    simp only at hok
    subst hok
    have hj := handleJoin_ok_eq hrid hlen haa
    obtain ⟨⟨room, hg, hg'⟩, -⟩ := addPlayer_ok_getRoom haa
    have hlp : listPlayers reg' roomId = some (room.players ++ [player]) := by
      simp [listPlayers, hg']
    refine ⟨room.players ++ [player], ?_, ?_⟩
    · rw [hj, hlp]
      rfl
    · rw [hj]
      exact hlp
  · intro rid ps hmem
    cases hb : st.binding with
    | none => simp [handleLeave, hb] at hmem
    | some b =>
      by_cases hc : (b.roomId == "" || b.playerId == "") = true
      · simp [handleLeave, hb, hc] at hmem
      · have hc' : (b.roomId == "" || b.playerId == "") = false := by
          simpa using hc
        cases hlp : listPlayers (removePlayer st.registry b.roomId b.playerId).1 b.roomId with
        | none => simp [handleLeave, hb, hc', hlp] at hmem
        | some ps0 =>
          simp only [handleLeave, hb, hc', Bool.false_eq_true, if_false, hlp,
            List.cons_append, List.nil_append, List.mem_cons, List.mem_singleton] at hmem
          rcases hmem with hmem | hmem
          · obtain ⟨hrid, hps⟩ := Event.playersEvt.inj hmem.symm
            subst hrid
            subst hps
            simp [handleLeave, hb, hc', hlp]
          · exact absurd hmem (by simp)

/-- Witness for C5 at a concrete state: a successful join broadcasts the
appended member list. -/
theorem claim_c5_broadcast_is_current_list_witness :
    ∃ ps, (handleJoin ⟨[⟨"r1", "Lobby", [⟨"p1", "Alice"⟩]⟩], none⟩ "r1" "Bob" "p2").2
          = [Event.joinedEvt "r1" ⟨"p2", "Bob"⟩, Event.playersEvt "r1" ps]
      ∧ listPlayers (handleJoin ⟨[⟨"r1", "Lobby", [⟨"p1", "Alice"⟩]⟩], none⟩
            "r1" "Bob" "p2").1.registry "r1" = some ps :=
  (claim_c5_broadcast_is_current_list ⟨[⟨"r1", "Lobby", [⟨"p1", "Alice"⟩]⟩], none⟩
    "r1" "Bob" "p2").1 ⟨"p2", "Bob"⟩ (by decide) (by decide) (by decide)

/-- C6: For a connection bound to a (room, participant) pair, the disconnect
handler leaves the registry exactly as the leave handler would, and emits the
same events except for the trailing private `room:left` confirmation. -/
theorem claim_c6_disconnect_equiv_leave (st : GwState) (b : Binding)
    (hb : st.binding = some b) (h1 : b.roomId ≠ "") (h2 : b.playerId ≠ "") :
    (handleDisconnect st).1 = (handleLeave st).1.registry ∧
    (handleLeave st).2 = (handleDisconnect st).2 ++ [Event.leftEvt b.roomId] := by
  have hc : (b.roomId == "" || b.playerId == "") = false := by simp [h1, h2]
  constructor
  · simp [handleLeave, handleDisconnect, hb, hc]
  · simp [handleLeave, handleDisconnect, hb, hc]

/-- Witness for C6 at a concrete bound connection. -/
theorem claim_c6_disconnect_equiv_leave_witness :
    (handleDisconnect ⟨[⟨"r1", "Lobby", [⟨"p1", "Alice"⟩]⟩], some ⟨"r1", "p1"⟩⟩).1
        = (handleLeave ⟨[⟨"r1", "Lobby", [⟨"p1", "Alice"⟩]⟩], some ⟨"r1", "p1"⟩⟩).1.registry
    ∧ (handleLeave ⟨[⟨"r1", "Lobby", [⟨"p1", "Alice"⟩]⟩], some ⟨"r1", "p1"⟩⟩).2
        = (handleDisconnect ⟨[⟨"r1", "Lobby", [⟨"p1", "Alice"⟩]⟩], some ⟨"r1", "p1"⟩⟩).2
          ++ [Event.leftEvt "r1"] :=
  claim_c6_disconnect_equiv_leave _ ⟨"r1", "p1"⟩ rfl (by decide) (by decide)

/-- C7: A join intent whose player name trims to fewer than 2 characters is
rejected for every roomId and every registry with state (registry and
binding) untouched, and the single emitted event is exactly the validation
error of the payload guards — `"playerName required (min 2 chars)"` for a
nonempty roomId, `"roomId required"` otherwise — never the store outcomes
`"Room not found"` or `"Name taken"`.  Since this holds also when the room is
absent from (or the name taken in) the registry, the rejection happens before
the room lookup and before the uniqueness scan. -/
theorem claim_c7_short_name_rejected (st : GwState) (roomId name pid : String)
    (h : jsLength (jsTrim name) < 2) :
    (handleJoin st roomId name pid).1 = st ∧
    (handleJoin st roomId name pid).2 =
      [Event.errEvt
        (if roomId == "" then "roomId required" else "playerName required (min 2 chars)")] := by
  by_cases hr : roomId = ""
  · subst hr
    exact ⟨by simp [handleJoin], by simp [handleJoin]⟩
  · have hr' : (roomId == "") = false := by simp [hr]
    have hcond : (name == "" || decide (jsLength (jsTrim name) < 2)) = true := by
      simp [h]
    exact ⟨by simp [handleJoin, hr', hcond], by simp [handleJoin, hr', hcond]⟩

/-- Witness for C7: a one-character name sent to a room id that does not even
exist in the registry is answered with the playerName validation error (not
`"Room not found"`), and the state is unchanged. -/
theorem claim_c7_short_name_rejected_witness :
    (handleJoin ⟨[⟨"r1", "Lobby", []⟩], none⟩ "missing" " B " "p1").1
        = ⟨[⟨"r1", "Lobby", []⟩], none⟩
    ∧ (handleJoin ⟨[⟨"r1", "Lobby", []⟩], none⟩ "missing" " B " "p1").2
        = [Event.errEvt
            (if "missing" == "" then "roomId required"
             else "playerName required (min 2 chars)")] :=
  claim_c7_short_name_rejected ⟨[⟨"r1", "Lobby", []⟩], none⟩ "missing" " B " "p1" (by decide)

/-- Two empty rooms, used to exercise the double-join scenario. -/
def regTwoRooms : Registry := [⟨"r1", "Room One", []⟩, ⟨"r2", "Room Two", []⟩]

/-- State after joining room `r1` as "Bob" from a fresh connection. -/
def stAfterFirstJoin : GwState := (handleJoin ⟨regTwoRooms, none⟩ "r1" "Bob" "p1").1

/-- State after the same connection then joins room `r2`, without leaving. -/
def stAfterSecondJoin : GwState := (handleJoin stAfterFirstJoin "r2" "Bob" "p2").1

/-- C9 counterexample: after a second `room:join` into a different room the
binding is overwritten with the new pair, so the eventual disconnect removes
only the new participant from the new room; the stale participant is still in
the old room `r1` after the disconnect, contradicting the claim that the
disconnect removes it. -/
theorem claim_c9_counterexample :
    stAfterSecondJoin.binding = some ⟨"r2", "p2"⟩
    ∧ listPlayers stAfterSecondJoin.registry "r2" = some [⟨"p2", "Bob"⟩]
    ∧ listPlayers stAfterSecondJoin.registry "r1" = some [⟨"p1", "Bob"⟩]
    ∧ listPlayers (handleDisconnect stAfterSecondJoin).1 "r2" = some []
    ∧ listPlayers (handleDisconnect stAfterSecondJoin).1 "r1" = some [⟨"p1", "Bob"⟩] := by
  decide

/-- C9 (amended): a second `room:join` for a different room, when the admit
succeeds, admits the connection into the new room without removing the old
membership — and because the binding is overwritten, the old room keeps the
stale participant permanently: the connection's eventual disconnect removes
only the new participant and leaves the old room's member list untouched. -/
theorem claim_c9_second_join_orphan (st : GwState) (b : Binding)
    (_hb : st.binding = some b) (roomId name pid : String)
    (hne : b.roomId ≠ roomId) (hrid : roomId ≠ "")
    (hlen : 2 ≤ jsLength (jsTrim name)) (hpid : pid ≠ "") (player : Player)
    (hok : (addPlayer st.registry roomId name pid).2 = AddResult.ok player) :
    (handleJoin st roomId name pid).1.binding = some ⟨roomId, player.id⟩
    ∧ listPlayers (handleJoin st roomId name pid).1.registry b.roomId
        = listPlayers st.registry b.roomId
    ∧ listPlayers (handleDisconnect (handleJoin st roomId name pid).1).1 b.roomId
        = listPlayers st.registry b.roomId := by
  rcases haa : addPlayer st.registry roomId name pid with ⟨reg', res⟩
  rw [haa] at hok
  simp only at hok
  subst hok
  have hj := handleJoin_ok_eq hrid hlen haa
  obtain ⟨-, hother⟩ := addPlayer_ok_getRoom haa
  have hold : listPlayers reg' b.roomId = listPlayers st.registry b.roomId := by
    simp [listPlayers, hother b.roomId hne]
  have hpidp : player.id = pid := by
    obtain ⟨room, -, -, hp, -⟩ := addPlayer_ok_eq haa
    rw [hp]
  refine ⟨by rw [hj], by rw [hj]; exact hold, ?_⟩
  rw [hj]
  have hc : (roomId == "" || player.id == "") = false := by
    simp [hrid, hpidp, hpid]
  have hdisc : (handleDisconnect
      ⟨reg', some ⟨roomId, player.id⟩⟩).1
      = (removePlayer reg' roomId player.id).1 := by
    simp [handleDisconnect, hc]
  rw [hdisc]
  rw [listPlayers, getRoom_removePlayer_ne hne, ← listPlayers]
  exact hold

/-- Witness for the amended C9 at the concrete double-join scenario. -/
theorem claim_c9_second_join_orphan_witness :
    (handleJoin stAfterFirstJoin "r2" "Bob" "p2").1.binding = some ⟨"r2", "p2"⟩
    ∧ listPlayers (handleJoin stAfterFirstJoin "r2" "Bob" "p2").1.registry "r1"
        = listPlayers stAfterFirstJoin.registry "r1"
    ∧ listPlayers (handleDisconnect (handleJoin stAfterFirstJoin "r2" "Bob" "p2").1).1 "r1"
        = listPlayers stAfterFirstJoin.registry "r1" :=
  claim_c9_second_join_orphan stAfterFirstJoin ⟨"r1", "p1"⟩ (by decide) "r2" "Bob" "p2"
    (by decide) (by decide) (by decide) (by decide) ⟨"p2", "Bob"⟩ (by decide)

/-- C10: A connection holding a binding that processes `room:leave` always
receives the private `room:left` confirmation — even when the referenced room
no longer exists, in which case `removePlayer` returns `false` and the
room-wide broadcast is skipped (the event list is exactly `[room:left]`);
with no binding, no event at all (in particular no `room:left`) is emitted. -/
theorem claim_c10_left_confirmation_unconditional (st : GwState) :
    (∀ b : Binding, st.binding = some b → b.roomId ≠ "" → b.playerId ≠ "" →
        Event.leftEvt b.roomId ∈ (handleLeave st).2 ∧
        (getRoom st.registry b.roomId = none →
          (removePlayer st.registry b.roomId b.playerId).2 = false ∧
          (handleLeave st).2 = [Event.leftEvt b.roomId]))
    ∧ (st.binding = none → (handleLeave st).2 = []) := by
  constructor
  · intro b hb h1 h2
    have hc : (b.roomId == "" || b.playerId == "") = false := by simp [h1, h2]
    constructor
    · simp [handleLeave, hb, hc]
    · intro hnone
      have hrm : removePlayer st.registry b.roomId b.playerId = (st.registry, false) := by
        simp [removePlayer, hnone]
      refine ⟨by rw [hrm], ?_⟩
      have hlp : listPlayers (removePlayer st.registry b.roomId b.playerId).1 b.roomId
          = none := by
        rw [hrm]
        simp [listPlayers, hnone]
      simp [handleLeave, hb, hc, hlp]
  · intro hb
    simp [handleLeave, hb]

/-- Witness for C10: leave while bound to a room that has been deleted emits
exactly the private `room:left`. -/
theorem claim_c10_left_confirmation_unconditional_witness :
    Event.leftEvt "gone" ∈ (handleLeave ⟨[⟨"r1", "Lobby", []⟩], some ⟨"gone", "p9"⟩⟩).2
    ∧ ((removePlayer [⟨"r1", "Lobby", []⟩] "gone" "p9").2 = false
      ∧ (handleLeave ⟨[⟨"r1", "Lobby", []⟩], some ⟨"gone", "p9"⟩⟩).2
          = [Event.leftEvt "gone"]) :=
  have h := (claim_c10_left_confirmation_unconditional
    ⟨[⟨"r1", "Lobby", []⟩], some ⟨"gone", "p9"⟩⟩).1 ⟨"gone", "p9"⟩ rfl
    (by decide) (by decide)
  ⟨h.1, h.2 (by decide)⟩

end PokerVitoria
